import Mathlib

/-!
Shallow embedding of `src/primitive.rs`: an implicit-function (signed
distance field) CSG core with smoothly blended boolean operations.

Floats are modelled as real numbers.  `Point` and `Vector` are both
modelled by `Vec3` (the source's `to_vec` conversion is the identity
here).  The `Transform` type of the external `types` module is kept
abstract: definitions that need it are parameterized over a type `T`
and over the operations the source calls on it (`t_point`, `concat`,
`translate`, `i_vector`), with the external contract stated as
hypotheses where a claim depends on it.
-/

namespace StlIo

/-- Modelled from the spec: the external geometry collaborator's
3-component real-valued `Point`/`Vector` type (the concrete
linear-algebra library is out of scope of `src/`). -/
structure Vec3 where
  x : ℝ
  y : ℝ
  z : ℝ

instance : Add Vec3 := ⟨fun u v => ⟨u.x + v.x, u.y + v.y, u.z + v.z⟩⟩

instance : Sub Vec3 := ⟨fun u v => ⟨u.x - v.x, u.y - v.y, u.z - v.z⟩⟩

instance : Neg Vec3 := ⟨fun v => ⟨-v.x, -v.y, -v.z⟩⟩

instance : HMul Vec3 ℝ Vec3 := ⟨fun v c => ⟨v.x * c, v.y * c, v.z * c⟩⟩

/-- Modelled from the spec: the external `Vector::length()`, the
Euclidean norm of the 3-vector. -/
noncomputable def Vec3.length (v : Vec3) : ℝ :=
  Real.sqrt (v.x ^ 2 + v.y ^ 2 + v.z ^ 2)

/-- Modelled from the spec: the external `Vector::normalize()`, scaling
the vector to unit length (degenerate at the zero vector, as the spec
notes). -/
noncomputable def Vec3.normalize (v : Vec3) : Vec3 :=
  ⟨v.x / v.length, v.y / v.length, v.z / v.length⟩

/-- Modelled from the spec: the three small fixed axis-aligned offset
vectors `EPSILON_X`, `EPSILON_Y`, `EPSILON_Z` of the external `types`
module, used as finite-difference sampling offsets (one per axis,
magnitudes distinct per axis). -/
noncomputable def EPSILON_X : Vec3 := ⟨1e-10, 0, 0⟩

/-- Modelled from the spec: the y-axis finite-difference offset. -/
noncomputable def EPSILON_Y : Vec3 := ⟨0, 2e-10, 0⟩

/-- Modelled from the spec: the z-axis finite-difference offset. -/
noncomputable def EPSILON_Z : Vec3 := ⟨0, 0, 3e-10⟩

/-- Embedding of `normal_from_implicit`: forward differences of the
field along the three axis epsilons, normalized.  The field is passed
as a function, standing for the `ImplicitFunction` trait object. -/
noncomputable def normal_from_implicit (f : Vec3 → ℝ) (p : Vec3) : Vec3 :=
  let center := f p
  let dx := f (p + EPSILON_X) - center
  let dy := f (p + EPSILON_Y) - center
  let dz := f (p + EPSILON_Z) - center
  Vec3.normalize ⟨dx, dy, dz⟩

/-- Embedding of `rmin` (the union blend kernel). -/
noncomputable def rmin (a b r : ℝ) : ℝ :=
  if |a - b| < r then
    b + r * Real.sin (Real.pi / 4 + Real.arcsin ((a - b) / r / Real.sqrt 2)) - r
  else
    min a b

/-- Embedding of `rmax` (the intersection blend kernel). -/
noncomputable def rmax (a b r : ℝ) : ℝ :=
  if |a - b| < r then
    b - r * Real.sin (Real.pi / 4 - Real.arcsin ((a - b) / r / Real.sqrt 2)) + r
  else
    max a b

/-- The three `Mixer` implementations of the source (`UnionMixer`,
`IntersectionMixer`, `SubtractionMixer`); each holds only its blend
radius `r`, carried separately below. -/
inductive MixerKind where
  | union
  | intersection
  | subtraction

/-- Embedding of `Mixer::mixval` for each mixer, given the blend radius
`r` stored in the mixer. -/
noncomputable def mixval : MixerKind → ℝ → ℝ → ℝ → ℝ
  | .union, r, a, b => rmin a b r
  | .intersection, r, a, b => rmax a b r
  | .subtraction, r, a, b => rmax a (-b) r

/-- Embedding of `Mixer::mixnormal` for each mixer.  The child-normal
suppliers are thunks, standing for the lazily evaluated closures
`get_an`, `get_bn` of the source. -/
noncomputable def mixnormal : MixerKind → ℝ → ℝ → (Unit → Vec3) → (Unit → Vec3) → Vec3
  | .union, a, b, get_an, get_bn => if a < b then get_an () else get_bn ()
  | .intersection, a, b, get_an, get_bn => if a > b then get_an () else get_bn ()
  | .subtraction, a, b, get_an, get_bn => if a > -b then get_an () else get_bn () * (-1 : ℝ)

/-- Embedding of `SpherePrimitive`. -/
structure SpherePrimitive where
  radius : ℝ

/-- Embedding of `SpherePrimitive::value`: `p.to_vec().length() - radius`. -/
noncomputable def SpherePrimitive.value (s : SpherePrimitive) (p : Vec3) : ℝ :=
  p.length - s.radius

/-- Embedding of `SpherePrimitive::normal`: `p.to_vec().normalize()`. -/
noncomputable def SpherePrimitive.normal (_s : SpherePrimitive) (p : Vec3) : Vec3 :=
  p.normalize

/-- Embedding of the `Object` trait-object tree: leaves are
`PrimitiveWrapper` values (a stored `Transform` of the abstract type
`T` plus a primitive; `SpherePrimitive` is the one primitive in the
source) and inner nodes are `Bool` composites (a mixer kind with its
blend radius and two child objects). -/
inductive Obj (T : Type) where
  | prim (transform : T) (primitive : SpherePrimitive)
  | bool (mixer : MixerKind) (r : ℝ) (a : Obj T) (b : Obj T)

/-- Embedding of `ImplicitFunction::value` over the object tree.
`t_point : T → Vec3 → Vec3` is the external `Transform::t_point`
operation.  A leaf is `PrimitiveWrapper::value`
(`primitive.value(transform.t_point(p))`); a node is `Bool::value`
(`mixer.mixval(a.value(p), b.value(p))`). -/
noncomputable def Obj.value {T : Type} (t_point : T → Vec3 → Vec3) :
    Obj T → Vec3 → ℝ
  | .prim tr s, p => s.value (t_point tr p)
  | .bool m r a b, p => mixval m r (a.value t_point p) (b.value t_point p)

/-- Embedding of `ImplicitFunction::normal` over the object tree.
`i_vector : T → Vec3 → Vec3` is the external `Transform::i_vector`
(inverse-direction map).  A leaf is `PrimitiveWrapper::normal`
(`transform.i_vector(primitive.normal(transform.t_point(p))).normalize()`);
a node is `Bool::normal` (finite differences inside the blend band,
`mixer.mixnormal` with lazy child-normal thunks outside it). -/
noncomputable def Obj.normal {T : Type} (t_point i_vector : T → Vec3 → Vec3) :
    Obj T → Vec3 → Vec3
  | .prim tr s, p => (i_vector tr (s.normal (t_point tr p))).normalize
  | .bool m r a b, p =>
    let va := (a.value t_point p)
    let vb := (b.value t_point p)
    if |va - vb| < r then
      normal_from_implicit (fun q => (Obj.bool m r a b).value t_point q) p
    else
      mixnormal m va vb (fun _ => a.normal t_point i_vector p)
        (fun _ => b.normal t_point i_vector p)

/-- Embedding of `Object::apply_transform`.  `concat : T → T → T` is the
external `Transform::concat`.  A leaf replaces its stored transform by
`transform.concat(other)` (`PrimitiveWrapper::apply_transform`); a node
propagates to both children (`Bool::apply_transform`). -/
def Obj.apply_transform {T : Type} (concat : T → T → T) (other : T) :
    Obj T → Obj T
  | .prim tr s => .prim (concat tr other) s
  | .bool m r a b =>
    .bool m r (a.apply_transform concat other) (b.apply_transform concat other)

/-- Embedding of `Object::translate`: build the translation transform
via the external constructor `mk_translate` (`Transform::translate`)
and apply it with `apply_transform`. -/
def Obj.translate {T : Type} (concat : T → T → T) (mk_translate : Vec3 → T)
    (t : Vec3) (o : Obj T) : Obj T :=
  o.apply_transform concat (mk_translate t)

/-- Embedding of `Bool::new`: a composite node holding the two objects
and a freshly constructed mixer of radius `r`. -/
def Bool.new {T : Type} (m : MixerKind) (a b : Obj T) (r : ℝ) : Obj T :=
  .bool m r a b

/-- Embedding of `Bool::<T>::from_vec`: empty list gives `None`, a
singleton is returned unchanged, otherwise the list is split at
`len / 2` and the two recursively built halves become the children of
one composite node (`split_off(l2)` leaves the first `l2` elements in
`v` — the left child — and returns the rest — the right child). -/
noncomputable def fromVec {T : Type} (m : MixerKind) (r : ℝ)
    (v : List (Obj T)) : Option (Obj T) :=
  match _h : v with
  | [] => none
  | [x] => some x
  | _ :: _ :: _ =>
    let l2 := v.length / 2
    match fromVec m r (v.take l2), fromVec m r (v.drop l2) with
    | some a, some b => some (Bool.new m a b r)
    | _, _ => none
termination_by v.length
decreasing_by
  · simp_all [List.length_take]
    omega
  · simp_all [List.length_drop]
    omega

/-- Embedding of `Bool::<SubtractionMixer>::subtraction_from_vec`:
empty list gives `None`, a singleton is returned unchanged, otherwise
`v.split_off(1)` separates the head (the minuend) from the rest, whose
union-fold is subtracted from the head via `Subtraction::new`. -/
noncomputable def subtraction_from_vec {T : Type} (r : ℝ)
    (v : List (Obj T)) : Option (Obj T) :=
  match v with
  | [] => none
  | [x] => some x
  | x :: rest =>
    match fromVec MixerKind.union r rest with
    | some u => some (Bool.new MixerKind.subtraction x u r)
    | none => none

/-! Definitional lemmas for the `Vec3` arithmetic instances. -/

theorem Vec3.add_def (u v : Vec3) :
    u + v = ⟨u.x + v.x, u.y + v.y, u.z + v.z⟩ := rfl

theorem Vec3.sub_def (u v : Vec3) :
    u - v = ⟨u.x - v.x, u.y - v.y, u.z - v.z⟩ := rfl

theorem Vec3.neg_def (v : Vec3) : -v = ⟨-v.x, -v.y, -v.z⟩ := rfl

theorem Vec3.smul_def (v : Vec3) (c : ℝ) :
    v * c = ⟨v.x * c, v.y * c, v.z * c⟩ := rfl

/-- Helper: `from_vec` returns `Some` exactly on nonempty input (so the
`.unwrap()` calls on the recursive results cannot panic). -/
theorem fromVec_isSome {T : Type} (m : MixerKind) (r : ℝ) :
    ∀ (n : ℕ) (v : List (Obj T)), v.length ≤ n → v ≠ [] →
      (fromVec m r v).isSome := by
  intro n
  induction n with
  | zero =>
    intro v hl hne
    cases v with
    | nil => exact absurd rfl hne
    | cons x l => simp at hl
  | succ n ih =>
    intro v hl hne
    match v with
    | [x] => simp [fromVec]
    | x :: y :: rest =>
      rw [fromVec]
      have hlen : (x :: y :: rest).length = rest.length + 2 := by simp
      have htake : (x :: y :: rest).take ((x :: y :: rest).length / 2) ≠ [] := by
        simp [List.take_eq_nil_iff]
        omega
      have hdrop : (x :: y :: rest).drop ((x :: y :: rest).length / 2) ≠ [] := by
        simp [List.drop_eq_nil_iff]
        omega
      have h1 := ih ((x :: y :: rest).take ((x :: y :: rest).length / 2))
        (by simp [List.length_take]; omega) htake
      have h2 := ih ((x :: y :: rest).drop ((x :: y :: rest).length / 2))
        (by simp [List.length_drop]; omega) hdrop
      obtain ⟨a, ha⟩ := Option.isSome_iff_exists.mp h1
      obtain ⟨b, hb⟩ := Option.isSome_iff_exists.mp h2
      rw [ha, hb]
      simp

/-- Helper: nonempty input always folds to `Some` object. -/
theorem fromVec_isSome_of_ne_nil {T : Type} (m : MixerKind) (r : ℝ)
    (v : List (Obj T)) (hne : v ≠ []) : (fromVec m r v).isSome :=
  fromVec_isSome m r v.length v le_rfl hne

/-- C4: `from_vec` returns `None` on the empty list, the single element
unchanged on a singleton, and otherwise splits the list at `len / 2`,
recursively builds each half, and joins the two results in exactly one
top-level composite node with the first half as the left child and the
remainder as the right child. -/
theorem C4_from_vec_structure {T : Type} (m : MixerKind) (r : ℝ) :
    fromVec (T := T) m r [] = none ∧
    (∀ x : Obj T, fromVec m r [x] = some x) ∧
    (∀ v : List (Obj T), 2 ≤ v.length →
      ∃ a b, fromVec m r (v.take (v.length / 2)) = some a ∧
        fromVec m r (v.drop (v.length / 2)) = some b ∧
        fromVec m r v = some (Obj.bool m r a b)) := by
  refine ⟨by simp [fromVec], fun x => by simp [fromVec], fun v hv => ?_⟩
  match v with
  | x :: y :: rest =>
    have hlen : (x :: y :: rest).length = rest.length + 2 := by simp
    have htake : (x :: y :: rest).take ((x :: y :: rest).length / 2) ≠ [] := by
      simp [List.take_eq_nil_iff]
      omega
    have hdrop : (x :: y :: rest).drop ((x :: y :: rest).length / 2) ≠ [] := by
      simp [List.drop_eq_nil_iff]
      omega
    obtain ⟨a, ha⟩ := Option.isSome_iff_exists.mp
      (fromVec_isSome_of_ne_nil m r _ htake)
    obtain ⟨b, hb⟩ := Option.isSome_iff_exists.mp
      (fromVec_isSome_of_ne_nil m r _ hdrop)
    refine ⟨a, b, ha, hb, ?_⟩
    rw [fromVec]
    rw [ha, hb]
    rfl

/-- C4 witness: on a concrete two-element list the builder splits at
index 1 and produces one composite node. -/
theorem C4_from_vec_structure_witness :
    ∃ a b,
      fromVec MixerKind.union 1
        (([Obj.prim () (SpherePrimitive.mk 1), Obj.prim () (SpherePrimitive.mk 2)]).take
          (([Obj.prim () (SpherePrimitive.mk 1), Obj.prim () (SpherePrimitive.mk 2)]).length / 2))
        = some a ∧
      fromVec MixerKind.union 1
        (([Obj.prim () (SpherePrimitive.mk 1), Obj.prim () (SpherePrimitive.mk 2)]).drop
          (([Obj.prim () (SpherePrimitive.mk 1), Obj.prim () (SpherePrimitive.mk 2)]).length / 2))
        = some b ∧
      fromVec MixerKind.union 1
        [Obj.prim () (SpherePrimitive.mk 1), Obj.prim () (SpherePrimitive.mk 2)]
        = some (Obj.bool MixerKind.union 1 a b) :=
  (C4_from_vec_structure MixerKind.union 1).2.2
    [Obj.prim () (SpherePrimitive.mk 1), Obj.prim () (SpherePrimitive.mk 2)] (by simp)

/-- C10: the recursion in `from_vec` and `subtraction_from_vec` is
well-founded and the internal `.unwrap()` calls cannot panic: on a list
of length at least two, both the first `len / 2` elements and the
remaining elements are nonempty and strictly shorter, so each recursive
`from_vec` call returns `Some`; and the union-fold of the nonempty tail
inside `subtraction_from_vec` also returns `Some`. -/
theorem C10_builders_never_panic {T : Type} (m : MixerKind) (r : ℝ) :
    (∀ v : List (Obj T), 2 ≤ v.length →
      v.take (v.length / 2) ≠ [] ∧ v.drop (v.length / 2) ≠ [] ∧
      (v.take (v.length / 2)).length < v.length ∧
      (v.drop (v.length / 2)).length < v.length ∧
      (fromVec m r (v.take (v.length / 2))).isSome ∧
      (fromVec m r (v.drop (v.length / 2))).isSome) ∧
    (∀ (x : Obj T) (rest : List (Obj T)), rest ≠ [] →
      (fromVec MixerKind.union r rest).isSome ∧
      (subtraction_from_vec r (x :: rest)).isSome) := by
  constructor
  · intro v hv
    have hvne : v ≠ [] := by
      rintro rfl
      simp at hv
    have htake : v.take (v.length / 2) ≠ [] := by
      simp [List.take_eq_nil_iff, hvne]
      omega
    have hdrop : v.drop (v.length / 2) ≠ [] := by
      simp [List.drop_eq_nil_iff]
      omega
    refine ⟨htake, hdrop, ?_, ?_, fromVec_isSome_of_ne_nil m r _ htake,
      fromVec_isSome_of_ne_nil m r _ hdrop⟩
    · simp [List.length_take]
      omega
    · simp [List.length_drop]
      omega
  · intro x rest hrest
    refine ⟨fromVec_isSome_of_ne_nil _ r _ hrest, ?_⟩
    match rest with
    | y :: rest2 =>
      obtain ⟨u, hu⟩ := Option.isSome_iff_exists.mp
        (fromVec_isSome_of_ne_nil MixerKind.union r (y :: rest2) hrest)
      rw [subtraction_from_vec]
      · rw [hu]
        simp
      · exact hrest

/-- C10 witness: on a concrete two-element list both halves are
nonempty, strictly shorter, and fold to `Some`, and the subtraction
builder succeeds. -/
theorem C10_builders_never_panic_witness :
    (fromVec MixerKind.union 1
      (([Obj.prim () (SpherePrimitive.mk 1), Obj.prim () (SpherePrimitive.mk 2)]).take
        (([Obj.prim () (SpherePrimitive.mk 1), Obj.prim () (SpherePrimitive.mk 2)]).length / 2))).isSome ∧
    (subtraction_from_vec 1
      (Obj.prim () (SpherePrimitive.mk 1) :: [Obj.prim () (SpherePrimitive.mk 2)])).isSome :=
  ⟨((C10_builders_never_panic MixerKind.union 1).1
      [Obj.prim () (SpherePrimitive.mk 1), Obj.prim () (SpherePrimitive.mk 2)]
      (by simp)).2.2.2.2.1,
   ((C10_builders_never_panic MixerKind.union 1).2
      (Obj.prim () (SpherePrimitive.mk 1)) [Obj.prim () (SpherePrimitive.mk 2)]
      (by simp)).2⟩

/-- C3: on a list with head `A` and nonempty tail, `subtraction_from_vec`
succeeds and builds exactly `Subtraction::new(A, Union::from_vec(tail, r), r)`,
so the two fields' value functions agree at every point. -/
theorem C3_subtraction_from_vec_refines {T : Type} (r : ℝ) (A : Obj T)
    (rest : List (Obj T)) (hrest : rest ≠ []) :
    (subtraction_from_vec r (A :: rest)).isSome ∧
    ∀ (t_point : T → Vec3 → Vec3) (p : Vec3),
      Option.map (fun o => Obj.value t_point o p) (subtraction_from_vec r (A :: rest)) =
        Option.map (fun u => Obj.value t_point (Bool.new MixerKind.subtraction A u r) p)
          (fromVec MixerKind.union r rest) := by
  match rest with
  | y :: rest2 =>
    obtain ⟨u, hu⟩ := Option.isSome_iff_exists.mp
      (fromVec_isSome_of_ne_nil MixerKind.union r (y :: rest2) hrest)
    have hsub : subtraction_from_vec r (A :: y :: rest2) =
        some (Bool.new MixerKind.subtraction A u r) := by
      rw [subtraction_from_vec]
      · rw [hu]
      · exact hrest
    rw [hsub, hu]
    simp

/-- C3 witness: a concrete two-element instance of the refinement. -/
theorem C3_subtraction_from_vec_refines_witness :
    (subtraction_from_vec 1
      (Obj.prim () (SpherePrimitive.mk 1) :: [Obj.prim () (SpherePrimitive.mk 2)])).isSome ∧
    ∀ (t_point : Unit → Vec3 → Vec3) (p : Vec3),
      Option.map (fun o => Obj.value t_point o p)
        (subtraction_from_vec 1
          (Obj.prim () (SpherePrimitive.mk 1) :: [Obj.prim () (SpherePrimitive.mk 2)])) =
      Option.map
        (fun u => Obj.value t_point
          (Bool.new MixerKind.subtraction (Obj.prim () (SpherePrimitive.mk 1)) u 1) p)
        (fromVec MixerKind.union 1 [Obj.prim () (SpherePrimitive.mk 2)]) :=
  C3_subtraction_from_vec_refines 1 (Obj.prim () (SpherePrimitive.mk 1))
    [Obj.prim () (SpherePrimitive.mk 2)] (by simp)

/-- Helper: scalar multiplication by `-1` is vector negation. -/
theorem Vec3.mul_neg_one (v : Vec3) : v * (-1 : ℝ) = -v := by
  cases v
  simp [Vec3.smul_def, Vec3.neg_def]

/-- C1: for positive radius the union kernel blends as
`b + r*sin(pi/4 + asin((a-b)/(r*sqrt 2))) - r` inside the band
`|a-b| < r` and is `min a b` outside it, and the intersection kernel
blends as `b - r*sin(pi/4 - asin((a-b)/(r*sqrt 2))) + r` inside the
band and is `max a b` outside it. -/
theorem C1_blend_kernel_values (r a b : ℝ) (_hr : 0 < r) :
    mixval MixerKind.union r a b =
      (if |a - b| < r then
        b + r * Real.sin (Real.pi / 4 + Real.arcsin ((a - b) / (r * Real.sqrt 2))) - r
      else min a b) ∧
    mixval MixerKind.intersection r a b =
      (if |a - b| < r then
        b - r * Real.sin (Real.pi / 4 - Real.arcsin ((a - b) / (r * Real.sqrt 2))) + r
      else max a b) := by
  constructor
  · show rmin a b r = _
    rw [rmin, div_div]
  · show rmax a b r = _
    rw [rmax, div_div]

/-- C1 witness: the union kernel at `r = 1`, `a = 5`, `b = 1`. -/
theorem C1_blend_kernel_values_witness :
    mixval MixerKind.union 1 5 1 =
      (if |(5 : ℝ) - 1| < 1 then
        1 + 1 * Real.sin (Real.pi / 4 + Real.arcsin (((5 : ℝ) - 1) / (1 * Real.sqrt 2))) - 1
      else min 5 1) :=
  (C1_blend_kernel_values 1 5 1 (by norm_num)).1

/-- C6: the subtraction mixer's value is the smooth-max kernel applied
to `(a, -b, r)`, and its normal selection returns A's normal when
`a > -b` and the negation of B's normal otherwise. -/
theorem C6_subtraction_mixer (r a b : ℝ) (get_an get_bn : Unit → Vec3) :
    mixval MixerKind.subtraction r a b = rmax a (-b) r ∧
    (a > -b → mixnormal MixerKind.subtraction a b get_an get_bn = get_an ()) ∧
    (¬a > -b → mixnormal MixerKind.subtraction a b get_an get_bn = -(get_bn ())) := by
  refine ⟨rfl, fun h => by simp [mixnormal, h], fun h => ?_⟩
  simp [mixnormal, h, Vec3.mul_neg_one]

/-- C6 witness: both normal-selection branches at concrete inputs. -/
theorem C6_subtraction_mixer_witness :
    mixnormal MixerKind.subtraction 1 0
        (fun _ => ⟨1, 0, 0⟩) (fun _ => ⟨0, 1, 0⟩) =
      (fun _ : Unit => (⟨1, 0, 0⟩ : Vec3)) () ∧
    mixnormal MixerKind.subtraction (-1) 0
        (fun _ => ⟨1, 0, 0⟩) (fun _ => ⟨0, 1, 0⟩) =
      -((fun _ : Unit => (⟨0, 1, 0⟩ : Vec3)) ()) :=
  ⟨(C6_subtraction_mixer 1 1 0 _ _).2.1 (by norm_num),
   (C6_subtraction_mixer 1 (-1) 0 _ _).2.2 (by norm_num)⟩

/-- C7: applying `apply_transform t1` and then `apply_transform t2`
yields the same object as one `apply_transform (t1.concat t2)`, for
leaves (which store `transform.concat(other)`) and composites (which
propagate to both children), under associativity of the external
`Transform::concat`. -/
theorem C7_apply_transform_accumulates {T : Type} (concat : T → T → T)
    (hassoc : ∀ a b c : T, concat (concat a b) c = concat a (concat b c))
    (o : Obj T) (t1 t2 : T) :
    (o.apply_transform concat t1).apply_transform concat t2 =
      o.apply_transform concat (concat t1 t2) := by
  induction o with
  | prim tr s => simp [Obj.apply_transform, hassoc]
  | bool m r a b iha ihb => simp [Obj.apply_transform, iha, ihb]

/-- C7 witness: a concrete composite over `T = ℕ` with `concat = (+)`. -/
theorem C7_apply_transform_accumulates_witness :
    ((Obj.bool MixerKind.union 1 (Obj.prim 0 (SpherePrimitive.mk 1))
        (Obj.prim 5 (SpherePrimitive.mk 2))).apply_transform Nat.add
          1).apply_transform Nat.add 2 =
      (Obj.bool MixerKind.union 1 (Obj.prim 0 (SpherePrimitive.mk 1))
        (Obj.prim 5 (SpherePrimitive.mk 2))).apply_transform Nat.add
          (Nat.add 1 2) :=
  C7_apply_transform_accumulates Nat.add Nat.add_assoc _ 1 2

/-- C9: translating a wrapped primitive by `v` and evaluating at `p`
equals evaluating the untranslated wrapper at `p - v`, under the
external Transform contract (`t_point` of a `concat` applies the newer
transform first, and `t_point` of `Transform::translate v` subtracts
`v`). -/
theorem C9_translate_round_trip {T : Type} (t_point : T → Vec3 → Vec3)
    (concat : T → T → T) (mk_translate : Vec3 → T)
    (hconcat : ∀ (s t : T) (p : Vec3),
      t_point (concat s t) p = t_point s (t_point t p))
    (htrans : ∀ (v p : Vec3), t_point (mk_translate v) p = p - v)
    (tr : T) (s : SpherePrimitive) (v p : Vec3) :
    Obj.value t_point (Obj.translate concat mk_translate v (Obj.prim tr s)) p =
      Obj.value t_point (Obj.prim tr s) (p - v) := by
  simp [Obj.translate, Obj.apply_transform, Obj.value, hconcat, htrans]

/-- C9 witness: a translation-only model of the Transform contract
(`T = Vec3`, `t_point t p = p - t`, `concat s t = t + s`) at concrete
inputs. -/
theorem C9_translate_round_trip_witness :
    Obj.value (fun (t : Vec3) p => p - t)
        (Obj.translate (fun s t => t + s) (fun v => v) ⟨1, 2, 3⟩
          (Obj.prim ⟨0, 0, 0⟩ (SpherePrimitive.mk 1))) ⟨5, 5, 5⟩ =
      Obj.value (fun (t : Vec3) p => p - t)
        (Obj.prim ⟨0, 0, 0⟩ (SpherePrimitive.mk 1)) ((⟨5, 5, 5⟩ : Vec3) - ⟨1, 2, 3⟩) :=
  C9_translate_round_trip (fun t p => p - t) (fun s t => t + s)
    (fun v => v)
    (by
      intro s t p
      simp [Vec3.sub_def, Vec3.add_def]
      refine ⟨by ring, by ring, by ring⟩)
    (fun _ _ => rfl) ⟨0, 0, 0⟩
    (SpherePrimitive.mk 1) ⟨1, 2, 3⟩ ⟨5, 5, 5⟩

/-- C2: a composite's `normal` evaluates both children's values and
falls back to the finite-difference estimate of its own combined field
inside the blend band `|a - b| < r`, and otherwise defers to
`mixer.mixnormal` with lazy child-normal thunks; and `mixnormal` never
uses the non-selected thunk (its result is unchanged when that thunk is
replaced). -/
theorem C2_bool_normal_dispatch {T : Type} (t_point i_vector : T → Vec3 → Vec3)
    (m : MixerKind) (r : ℝ) (a b : Obj T) (p : Vec3) :
    (Obj.normal t_point i_vector (Obj.bool m r a b) p =
      if |Obj.value t_point a p - Obj.value t_point b p| < r then
        normal_from_implicit (fun q => Obj.value t_point (Obj.bool m r a b) q) p
      else
        mixnormal m (Obj.value t_point a p) (Obj.value t_point b p)
          (fun _ => Obj.normal t_point i_vector a p)
          (fun _ => Obj.normal t_point i_vector b p)) ∧
    (∀ (x y : ℝ) (ga ga2 gb gb2 : Unit → Vec3),
      (x < y → mixnormal MixerKind.union x y ga gb =
        mixnormal MixerKind.union x y ga gb2) ∧
      (¬x < y → mixnormal MixerKind.union x y ga gb =
        mixnormal MixerKind.union x y ga2 gb) ∧
      (x > y → mixnormal MixerKind.intersection x y ga gb =
        mixnormal MixerKind.intersection x y ga gb2) ∧
      (¬x > y → mixnormal MixerKind.intersection x y ga gb =
        mixnormal MixerKind.intersection x y ga2 gb) ∧
      (x > -y → mixnormal MixerKind.subtraction x y ga gb =
        mixnormal MixerKind.subtraction x y ga gb2) ∧
      (¬x > -y → mixnormal MixerKind.subtraction x y ga gb =
        mixnormal MixerKind.subtraction x y ga2 gb)) := by
  constructor
  · rw [Obj.normal]
  intro x y ga ga2 gb gb2
  refine ⟨fun h => by simp [mixnormal, h], fun h => by simp [mixnormal, h],
    fun h => by simp [mixnormal, h], fun h => by simp [mixnormal, h],
    fun h => by simp [mixnormal, h], fun h => by simp [mixnormal, h]⟩

/-- C2 witness: the dispatch equation on a concrete composite, and a
concrete instance of thunk-independence of the union selection. -/
theorem C2_bool_normal_dispatch_witness :
    (Obj.normal (fun (_ : Unit) p => p) (fun _ p => p)
        (Obj.bool MixerKind.union 1 (Obj.prim () (SpherePrimitive.mk 1))
          (Obj.prim () (SpherePrimitive.mk 2))) ⟨0, 0, 0⟩ =
      if |Obj.value (fun (_ : Unit) p => p) (Obj.prim () (SpherePrimitive.mk 1)) ⟨0, 0, 0⟩ -
          Obj.value (fun (_ : Unit) p => p) (Obj.prim () (SpherePrimitive.mk 2)) ⟨0, 0, 0⟩| < 1 then
        normal_from_implicit
          (fun q => Obj.value (fun (_ : Unit) p => p)
            (Obj.bool MixerKind.union 1 (Obj.prim () (SpherePrimitive.mk 1))
              (Obj.prim () (SpherePrimitive.mk 2))) q) ⟨0, 0, 0⟩
      else
        mixnormal MixerKind.union
          (Obj.value (fun (_ : Unit) p => p) (Obj.prim () (SpherePrimitive.mk 1)) ⟨0, 0, 0⟩)
          (Obj.value (fun (_ : Unit) p => p) (Obj.prim () (SpherePrimitive.mk 2)) ⟨0, 0, 0⟩)
          (fun _ => Obj.normal (fun (_ : Unit) p => p) (fun _ p => p)
            (Obj.prim () (SpherePrimitive.mk 1)) ⟨0, 0, 0⟩)
          (fun _ => Obj.normal (fun (_ : Unit) p => p) (fun _ p => p)
            (Obj.prim () (SpherePrimitive.mk 2)) ⟨0, 0, 0⟩)) ∧
    mixnormal MixerKind.union 0 1 (fun _ => ⟨1, 0, 0⟩) (fun _ => ⟨0, 1, 0⟩) =
      mixnormal MixerKind.union 0 1 (fun _ => ⟨1, 0, 0⟩) (fun _ => ⟨0, 0, 1⟩) :=
  ⟨(C2_bool_normal_dispatch (fun _ p => p) (fun _ p => p) MixerKind.union 1
      (Obj.prim () (SpherePrimitive.mk 1)) (Obj.prim () (SpherePrimitive.mk 2))
      ⟨0, 0, 0⟩).1,
   ((C2_bool_normal_dispatch (fun (_ : Unit) p => p) (fun _ p => p) MixerKind.union 1
      (Obj.prim () (SpherePrimitive.mk 1)) (Obj.prim () (SpherePrimitive.mk 2))
      ⟨0, 0, 0⟩).2 0 1 (fun _ => ⟨1, 0, 0⟩) (fun _ => ⟨1, 0, 0⟩)
      (fun _ => ⟨0, 1, 0⟩) (fun _ => ⟨0, 0, 1⟩)).1 (by norm_num)⟩

/-- Helper: the argument passed to `asin` inside the blend band lies in
`[-1, 1]`. -/
theorem arcsin_arg_le_one (d r : ℝ) (hr : 0 < r) (hd : |d| < r) :
    |d / r / Real.sqrt 2| ≤ 1 := by
  have hs2 : (0 : ℝ) < Real.sqrt 2 := Real.sqrt_pos.mpr (by norm_num)
  have h12 : (1 : ℝ) ≤ Real.sqrt 2 := by
    rw [show (1 : ℝ) = Real.sqrt 1 from Real.sqrt_one.symm]
    exact Real.sqrt_le_sqrt (by norm_num)
  rw [abs_div, abs_div, abs_of_pos hr, abs_of_pos hs2]
  rw [div_le_one hs2]
  exact le_of_lt (lt_of_lt_of_le ((div_lt_one hr).mpr hd) h12)

/-- Helper: the union blend kernel is symmetric in its two field
arguments for positive radius. -/
theorem rmin_comm (a b r : ℝ) (hr : 0 < r) : rmin a b r = rmin b a r := by
  unfold rmin
  rw [abs_sub_comm b a]
  by_cases h : |a - b| < r
  · rw [if_pos h, if_pos h]
    obtain ⟨h1, h2⟩ := abs_le.mp (arcsin_arg_le_one (a - b) r hr h)
    have hneg : (b - a) / r / Real.sqrt 2 = -((a - b) / r / Real.sqrt 2) := by
      ring
    rw [hneg, Real.arcsin_neg, ← sub_eq_add_neg, Real.sin_add, Real.sin_sub,
      Real.sin_pi_div_four, Real.cos_pi_div_four, Real.sin_arcsin h1 h2]
    field_simp
    ring_nf
  · rw [if_neg h, if_neg h, min_comm]

/-- Helper: the intersection blend kernel is symmetric in its two field
arguments for positive radius. -/
theorem rmax_comm (a b r : ℝ) (hr : 0 < r) : rmax a b r = rmax b a r := by
  unfold rmax
  rw [abs_sub_comm b a]
  by_cases h : |a - b| < r
  · rw [if_pos h, if_pos h]
    obtain ⟨h1, h2⟩ := abs_le.mp (arcsin_arg_le_one (a - b) r hr h)
    have hneg : (b - a) / r / Real.sqrt 2 = -((a - b) / r / Real.sqrt 2) := by
      ring
    rw [hneg, Real.arcsin_neg, sub_neg_eq_add, Real.sin_add, Real.sin_sub,
      Real.sin_pi_div_four, Real.cos_pi_div_four, Real.sin_arcsin h1 h2]
    field_simp
    ring_nf
  · rw [if_neg h, if_neg h, max_comm]

/-- C5: for positive radius the union and intersection blend kernels
are commutative: `mixval a b = mixval b a`. -/
theorem C5_blend_kernels_commutative (r a b : ℝ) (hr : 0 < r) :
    mixval MixerKind.union r a b = mixval MixerKind.union r b a ∧
    mixval MixerKind.intersection r a b = mixval MixerKind.intersection r b a :=
  ⟨rmin_comm a b r hr, rmax_comm a b r hr⟩

/-- C5 witness: commutativity at `r = 1`, `a = 5`, `b = 1`. -/
theorem C5_blend_kernels_commutative_witness :
    mixval MixerKind.union 1 5 1 = mixval MixerKind.union 1 1 5 ∧
    mixval MixerKind.intersection 1 5 1 = mixval MixerKind.intersection 1 1 5 :=
  C5_blend_kernels_commutative 1 5 1 (by norm_num)

/-- Helper: normalizing a nonzero vector yields a unit-length vector. -/
theorem Vec3.length_normalize (p : Vec3) (hp : p ≠ ⟨0, 0, 0⟩) :
    p.normalize.length = 1 := by
  obtain ⟨x, y, z⟩ := p
  have hS : 0 < x ^ 2 + y ^ 2 + z ^ 2 := by
    by_contra hle
    push_neg at hle
    have hx : x = 0 := by nlinarith
    have hy : y = 0 := by nlinarith
    have hz : z = 0 := by nlinarith
    exact hp (by simp [hx, hy, hz])
  have hsq : Real.sqrt (x ^ 2 + y ^ 2 + z ^ 2) ^ 2 = x ^ 2 + y ^ 2 + z ^ 2 :=
    Real.sq_sqrt hS.le
  simp only [Vec3.normalize, Vec3.length]
  rw [div_pow, div_pow, div_pow, div_add_div_same, div_add_div_same, hsq]
  rw [div_self hS.ne.symm]
  exact Real.sqrt_one

/-- C8: a sphere of radius `r` centered at the origin has
`value p = |p| - r`, negative strictly inside, positive strictly
outside, zero on the boundary; its normal is `normalize p`, of unit
length away from the origin. -/
theorem C8_sphere_field (r : ℝ) (p : Vec3) :
    (SpherePrimitive.mk r).value p = p.length - r ∧
    (p.length < r → (SpherePrimitive.mk r).value p < 0) ∧
    (r < p.length → 0 < (SpherePrimitive.mk r).value p) ∧
    (p.length = r → (SpherePrimitive.mk r).value p = 0) ∧
    (SpherePrimitive.mk r).normal p = p.normalize ∧
    (p ≠ ⟨0, 0, 0⟩ → ((SpherePrimitive.mk r).normal p).length = 1) := by
  refine ⟨rfl, fun h => ?_, fun h => ?_, fun h => ?_, rfl, fun h => ?_⟩
  · simpa [SpherePrimitive.value] using sub_neg.mpr h
  · simpa [SpherePrimitive.value] using sub_pos.mpr h
  · simp [SpherePrimitive.value, h]
  · exact Vec3.length_normalize p h

/-- C8 witness: concrete points inside, outside and on the boundary of
the radius-2 sphere, and the unit normal at a nonzero point. -/
theorem C8_sphere_field_witness :
    (SpherePrimitive.mk 2).value ⟨1, 0, 0⟩ < 0 ∧
    0 < (SpherePrimitive.mk 2).value ⟨3, 0, 0⟩ ∧
    (SpherePrimitive.mk 2).value ⟨2, 0, 0⟩ = 0 ∧
    ((SpherePrimitive.mk 2).normal ⟨1, 0, 0⟩).length = 1 :=
  ⟨(C8_sphere_field 2 ⟨1, 0, 0⟩).2.1 (by norm_num [Vec3.length]),
   (C8_sphere_field 2 ⟨3, 0, 0⟩).2.2.1 (by
     have h9 : Real.sqrt 9 = 3 := by
       rw [show (9 : ℝ) = 3 ^ 2 by norm_num, Real.sqrt_sq]
       norm_num
     norm_num [Vec3.length, h9]),
   (C8_sphere_field 2 ⟨2, 0, 0⟩).2.2.2.1 (by
     have h4 : Real.sqrt 4 = 2 := by
       rw [show (4 : ℝ) = 2 ^ 2 by norm_num, Real.sqrt_sq]
       norm_num
     norm_num [Vec3.length, h4]),
   (C8_sphere_field 2 ⟨1, 0, 0⟩).2.2.2.2.2 (by simp)⟩

end StlIo
